import Mathlib

/-!
Verification development for `apache_beam/typehints/schemas.py`: the
bidirectional translation between Python typings and portable Beam schema
protos.

Shallow embedding conventions:

* The proto messages `schema_pb2.FieldType` / `schema_pb2.Schema` are the
  mutual inductives `FieldType` / `TypeInfo` / `SchemaP` below.  A `Field`
  proto is a `(name, FieldType)` pair.  The unset oneof selector is the
  `TypeInfo.unset` constructor.
* The Python typings that the translator inspects form the inductive
  `PyType`.  Composite ("row-like") types are identified by a natural
  number key into an environment (`TransState.comps`): `PyType.rowCon c`
  is a `row_type.RowTypeConstraint` over composite `c`, and
  `PyType.namedTupleT c` is the corresponding user class (NamedTuple).
  The schema id that `RowTypeConstraint.set_schema_id` stores on the user
  type is the mutable `CompInfo.schemaId` field of the environment entry,
  so it is shared by `rowCon c` and `namedTupleT c`, as in the Python
  object graph.  This environment may be cyclic (a composite whose field
  annotations reference the composite itself), which is exactly the
  self-referential situation the specification discusses.
* All process-wide mutable state (the `SCHEMA_REGISTRY` dict `by_id`, the
  composite environment, the uuid source position, the counter used to
  give synthesized NamedTuple classes a fresh identity) is threaded
  explicitly as `TransState`.  We model the configuration in which the
  translation uses the default global registry (`SCHEMA_REGISTRY`), which
  is also the registry `typing_to_runner_api` line 192 consults
  unconditionally.
* `str(uuid4())` is modeled as an ambient stream `Nat → String` read at
  the current position; `generate_new_id` retries up to 100 draws against
  membership in `by_id` and fails (`EncErr.noUniqueId`, the Python
  `AssertionError`) when all collide.
* Python recursion is modeled with explicit fuel: one unit per call of
  `typing_to_runner_api` / `typing_from_runner_api`.  `EncErr.outOfFuel` /
  `DecErr.outOfFuel` at every fuel value is how the embedding exhibits a
  Python `RecursionError` (unbounded recursion); any terminating run of
  the Python code is reproduced exactly by any sufficiently large fuel.
* Decode errors (`ValueError` in Python) are the remaining `DecErr`
  constructors; field-level failures are wrapped with the offending
  field's name, as in lines 309-312.

The pieces of this repository that the file under `src/` merely imports
(`row_type.RowTypeConstraint`, `apache_beam.utils.timestamp.Timestamp`,
`common_urns`) are modeled from the specification where noted.
-/

/-- Atomic kinds of the wire schema (`schema_pb2.AtomicType`), including the
proto default `UNSPECIFIED`, which has no entry in the reverse table. -/
inductive AtomicKind where
  | UNSPECIFIED | BYTE | INT16 | INT32 | INT64 | FLOAT | DOUBLE | STRING | BOOLEAN | BYTES
deriving DecidableEq

mutual
/-- The `schema_pb2.FieldType` message: a `nullable` flag plus the oneof body. -/
inductive FieldType where
  | mk (nullable : Bool) (typeInfo : TypeInfo)

/-- The oneof `type_info` body of a `FieldType`. -/
inductive TypeInfo where
  | atomicType (k : AtomicKind)
  | arrayType (elementType : FieldType)
  | mapType (keyType valueType : FieldType)
  | rowType (schema : SchemaP)
  | logicalType (urn : String) (representation : Option FieldType)
  | unset

/-- The `schema_pb2.Schema` message: an id and ordered named fields. -/
inductive SchemaP where
  | mk (id : String) (fields : List (String × FieldType))
end

/-- The id of a `Schema` proto. -/
def SchemaP.id : SchemaP → String
  | .mk i _ => i

/-- The ordered `(name, type)` fields of a `Schema` proto. -/
def SchemaP.fields : SchemaP → List (String × FieldType)
  | .mk _ fs => fs

/-- The nullable flag of a `FieldType` proto. -/
def FieldType.nullable : FieldType → Bool
  | .mk n _ => n

/-- The oneof body of a `FieldType` proto. -/
def FieldType.typeInfo : FieldType → TypeInfo
  | .mk _ i => i

/-- The Python typings inspected by `SchemaTranslation`.  Leaves carry the
concrete Python classes of the primitive table (lines 123-146); `mapT`,
`optionalT` and `seqT` are `typing.Mapping[k, v]`, `typing.Optional[t]` and
`typing.Sequence[e]`; `timestampT` and `pythonCallableT` are the language
types of the two registered logical types; `anyT` is `typing.Any`;
`unknownT tag` stands for any other Python object, which matches none of
the translator's tests.  `schemaLit`, `rowCon`, `namedTupleT` are described
above. -/
inductive PyType where
  | schemaLit (s : SchemaP)
  | rowCon (c : Nat)
  | namedTupleT (c : Nat)
  | npInt8 | npInt16 | npInt32 | npInt64 | npFloat32 | npFloat64
  | pyStr | pyBool | pyBytes
  | byteString | pyInt | pyFloat
  | mapT (k v : PyType)
  | optionalT (t : PyType)
  | seqT (e : PyType)
  | timestampT | pythonCallableT
  | anyT
  | unknownT (tag : String)

/-- Modelled from the spec: the data of a `row_type.RowTypeConstraint` (not
under `src/`): its ordered `_fields` and the schema id stored on the user
type by `set_schema_id` (absent when the type was never translated). -/
structure CompInfo where
  fields : List (String × PyType)
  schemaId : Option String

/-- The mutable process-wide state of the translation: the schema registry
`by_id` (an insertion-shadowing association list: `id ↦ (typing, schema)`
where the typing is the composite key of the registered user type), the
composite environment, the uuid stream position and the counter providing
fresh identities for synthesized NamedTuple classes. -/
structure TransState where
  regById : List (String × Nat × SchemaP)
  comps : Nat → CompInfo
  uuidPos : Nat
  nextComp : Nat

/-- Encode-side failures: fuel exhaustion models a Python `RecursionError`
from unbounded recursion; `noUniqueId` is the `AssertionError` of
`SchemaTypeRegistry.generate_new_id` after 100 colliding draws. -/
inductive EncErr where
  | outOfFuel | noUniqueId
deriving DecidableEq

/-- Decode-side failures (`ValueError` in Python), plus fuel exhaustion as
for encode. -/
inductive DecErr where
  | outOfFuel
  | unsupportedAtomicType (k : AtomicKind)
  | unknownLogicalType (urn : String)
  | unrecognizedTypeInfo
  | fieldDecodeError (name : String) (inner : DecErr)
deriving DecidableEq

/-- Dict lookup in `SchemaTypeRegistry.by_id` (first match wins, so a later
`add` at the same key shadows the old entry, as with dict assignment). -/
def regLookup : List (String × Nat × SchemaP) → String → Option (Nat × SchemaP)
  | [], _ => none
  | (k, c, s) :: rest, uid => if k = uid then some (c, s) else regLookup rest uid

/-- `SchemaTypeRegistry.add`: `self.by_id[schema.id] = (typing, schema)`. -/
def registry_add (reg : List (String × Nat × SchemaP)) (typing : Nat) (schema : SchemaP) :
    List (String × Nat × SchemaP) :=
  (schema.id, typing, schema) :: reg

/-- `SchemaTypeRegistry.get_typing_by_id`. -/
def get_typing_by_id (reg : List (String × Nat × SchemaP)) (uniqueId : String) : Option Nat :=
  (regLookup reg uniqueId).map (fun r => r.1)

/-- `SchemaTypeRegistry.get_schema_by_id`. -/
def get_schema_by_id (reg : List (String × Nat × SchemaP)) (uniqueId : String) : Option SchemaP :=
  (regLookup reg uniqueId).map (fun r => r.2)

/-- The retry loop of `SchemaTypeRegistry.generate_new_id`: draw
`stream pos`, accept it if it is not a key of `by_id`, else retry; `none`
after the attempt budget is exhausted. -/
def generate_new_id_aux (stream : Nat → String) (reg : List (String × Nat × SchemaP)) :
    Nat → Nat → Option (String × Nat)
  | 0, _ => none
  | n+1, pos =>
    match regLookup reg (stream pos) with
    | none => some (stream pos, pos + 1)
    | some _ => generate_new_id_aux stream reg n (pos + 1)

/-- `SchemaTypeRegistry.generate_new_id`: up to 100 draws against the
current registry. -/
def generate_new_id (stream : Nat → String) (st : TransState) : Option (String × Nat) :=
  generate_new_id_aux stream st.regById 100 st.uuidPos

/-- The `PRIMITIVE_TO_ATOMIC_TYPE` dict: the bi-directional `_PRIMITIVES`
pairs (lines 123-133) together with the one-way entries `ByteString`,
`int`, `float` (lines 139-146). -/
def PRIMITIVE_TO_ATOMIC_TYPE : PyType → Option AtomicKind
  | .npInt8 => some .BYTE
  | .npInt16 => some .INT16
  | .npInt32 => some .INT32
  | .npInt64 => some .INT64
  | .npFloat32 => some .FLOAT
  | .npFloat64 => some .DOUBLE
  | .pyStr => some .STRING
  | .pyBool => some .BOOLEAN
  | .pyBytes => some .BYTES
  | .byteString => some .BYTES
  | .pyInt => some .INT64
  | .pyFloat => some .DOUBLE
  | _ => none

/-- The `ATOMIC_TYPE_TO_PRIMITIVE` dict: the reverse of the bi-directional
`_PRIMITIVES` pairs only.  `UNSPECIFIED` (the proto enum default) has no
entry, which is what makes the `KeyError` branch of decode reachable. -/
def ATOMIC_TYPE_TO_PRIMITIVE : AtomicKind → Option PyType
  | .BYTE => some .npInt8
  | .INT16 => some .npInt16
  | .INT32 => some .npInt32
  | .INT64 => some .npInt64
  | .FLOAT => some .npFloat32
  | .DOUBLE => some .npFloat64
  | .STRING => some .pyStr
  | .BOOLEAN => some .pyBool
  | .BYTES => some .pyBytes
  | .UNSPECIFIED => none

/-- Line 85: the urn of the untyped placeholder. -/
def PYTHON_ANY_URN : String := "beam:logical:pythonsdk_any:v1"

/-- The two `LogicalType` implementations registered at import time
(`MicrosInstant` line 543, `PythonCallable` line 569). -/
inductive LogicalTypeImpl where
  | microsInstant | pythonCallable
deriving DecidableEq

/-- `MicrosInstant.urn` is given by the module docstring (line 36);
`PythonCallable.urn` comes from `common_urns` (not under `src/`), modelled
from the same urn naming scheme. -/
def LogicalTypeImpl.urn : LogicalTypeImpl → String
  | .microsInstant => "beam:logical_type:micros_instant:v1"
  | .pythonCallable => "beam:logical_type:python_callable:v1"

/-- The fixed composite key reserved for the module-level NamedTuple
`MicrosInstantRepresentation` (lines 538-540). -/
def microsInstantRepresentationKey : Nat := 0

/-- `LogicalType.language_type` of each registered implementation. -/
def LogicalTypeImpl.language_type : LogicalTypeImpl → PyType
  | .microsInstant => .timestampT
  | .pythonCallable => .pythonCallableT

/-- `LogicalType.representation_type` of each registered implementation. -/
def LogicalTypeImpl.representation_type : LogicalTypeImpl → PyType
  | .microsInstant => .namedTupleT microsInstantRepresentationKey
  | .pythonCallable => .pyStr

/-- `LogicalTypeRegistry.get_logical_type_by_urn` for the registry holding
the two import-time registrations. -/
def get_logical_type_by_urn (urn : String) : Option LogicalTypeImpl :=
  if urn = LogicalTypeImpl.microsInstant.urn then some .microsInstant
  else if urn = LogicalTypeImpl.pythonCallable.urn then some .pythonCallable
  else none

/-- `LogicalTypeRegistry.get_logical_type_by_language_type`, the lookup
behind `LogicalType.from_typing`; `none` models the `ValueError` it raises
for unregistered typings. -/
def get_logical_type_by_language_type : PyType → Option LogicalTypeImpl
  | .timestampT => some .microsInstant
  | .pythonCallableT => some .pythonCallable
  | _ => none

/-- The list comprehension of lines 204-210 (and 154-157): translate each
`(name, typing)` field with the given one-step encoder, threading the
mutable state left to right and propagating the first failure. -/
def translate_fields
    (enc1 : TransState → PyType → Except EncErr (FieldType × TransState)) :
    TransState → List (String × PyType) → Except EncErr (List (String × FieldType) × TransState)
  | st, [] => .ok ([], st)
  | st, (name, fieldPyType) :: rest =>
    match enc1 st fieldPyType with
    | .error e => .error e
    | .ok (fieldFt, st1) =>
      match translate_fields enc1 st1 rest with
      | .error e => .error e
      | .ok (fieldProtos, st2) => .ok ((name, fieldFt) :: fieldProtos, st2)

/-- `SchemaTranslation.typing_to_runner_api` (lines 186-261), one fuel unit
per call.  Branches in source order; the `PyType` constructors make the
classification tests disjoint, so they are rendered as match arms:
`schemaLit` is the `isinstance(type_, schema_pb2.Schema)` test (187);
`rowCon` the `isinstance(type_, row_type.RowTypeConstraint)` branch
(190-212), where a missing schema id is generated and stored on the type
BEFORE the fields are translated, while `schema_registry.add` runs only
AFTER the field translation returns; `namedTupleT` the
`RowTypeConstraint.from_user_type` coercion (216-218); the primitive arms
the `PRIMITIVE_TO_ATOMIC_TYPE` membership test (222-223); then exact
mapping (225-228), optional (230-236), sequence (238-241); then
`LogicalType.from_typing` (248-261), whose `ValueError` for an
unregistered typing degrades to the `PYTHON_ANY_URN` placeholder with
`nullable=True` (252-254). -/
def typing_to_runner_api (stream : Nat → String) :
    Nat → TransState → PyType → Except EncErr (FieldType × TransState)
  | 0, _, _ => .error .outOfFuel
  | fuel+1, st, type_ =>
    match type_ with
    | .schemaLit s => .ok (⟨false, .rowType s⟩, st)
    | .rowCon c =>
      let info := st.comps c
      match info.schemaId with
      | none =>
        match generate_new_id stream st with
        | none => .error .noUniqueId
        | some (schemaId, pos') =>
          let st1 : TransState :=
            { st with uuidPos := pos',
                      comps := fun n => if n = c then { info with schemaId := some schemaId }
                               else st.comps n }
          match translate_fields (typing_to_runner_api stream fuel) st1 info.fields with
          | .error e => .error e
          | .ok (fieldProtos, st2) =>
            let schema : SchemaP := .mk schemaId fieldProtos
            .ok (⟨false, .rowType schema⟩, { st2 with regById := registry_add st2.regById c schema })
      | some schemaId =>
        match get_schema_by_id st.regById schemaId with
        | some schema => .ok (⟨false, .rowType schema⟩, st)
        | none =>
          match translate_fields (typing_to_runner_api stream fuel) st info.fields with
          | .error e => .error e
          | .ok (fieldProtos, st2) =>
            let schema : SchemaP := .mk schemaId fieldProtos
            .ok (⟨false, .rowType schema⟩, { st2 with regById := registry_add st2.regById c schema })
    | .namedTupleT c => typing_to_runner_api stream fuel st (.rowCon c)
    | .npInt8 => .ok (⟨false, .atomicType .BYTE⟩, st)
    | .npInt16 => .ok (⟨false, .atomicType .INT16⟩, st)
    | .npInt32 => .ok (⟨false, .atomicType .INT32⟩, st)
    | .npInt64 => .ok (⟨false, .atomicType .INT64⟩, st)
    | .npFloat32 => .ok (⟨false, .atomicType .FLOAT⟩, st)
    | .npFloat64 => .ok (⟨false, .atomicType .DOUBLE⟩, st)
    | .pyStr => .ok (⟨false, .atomicType .STRING⟩, st)
    | .pyBool => .ok (⟨false, .atomicType .BOOLEAN⟩, st)
    | .pyBytes => .ok (⟨false, .atomicType .BYTES⟩, st)
    | .byteString => .ok (⟨false, .atomicType .BYTES⟩, st)
    | .pyInt => .ok (⟨false, .atomicType .INT64⟩, st)
    | .pyFloat => .ok (⟨false, .atomicType .DOUBLE⟩, st)
    | .mapT keyT valueT =>
      match typing_to_runner_api stream fuel st keyT with
      | .error e => .error e
      | .ok (keyFt, st1) =>
        match typing_to_runner_api stream fuel st1 valueT with
        | .error e => .error e
        | .ok (valueFt, st2) => .ok (⟨false, .mapType keyFt valueFt⟩, st2)
    | .optionalT inner =>
      match typing_to_runner_api stream fuel st inner with
      | .error e => .error e
      | .ok (.mk _ resultInfo, st1) => .ok (⟨true, resultInfo⟩, st1)
    | .seqT elemT =>
      match typing_to_runner_api stream fuel st elemT with
      | .error e => .error e
      | .ok (elementType, st1) => .ok (⟨false, .arrayType elementType⟩, st1)
    | .timestampT =>
      match typing_to_runner_api stream fuel st LogicalTypeImpl.microsInstant.representation_type with
      | .error e => .error e
      | .ok (repFt, st1) =>
        .ok (⟨false, .logicalType LogicalTypeImpl.microsInstant.urn (some repFt)⟩, st1)
    | .pythonCallableT =>
      match typing_to_runner_api stream fuel st LogicalTypeImpl.pythonCallable.representation_type with
      | .error e => .error e
      | .ok (repFt, st1) =>
        .ok (⟨false, .logicalType LogicalTypeImpl.pythonCallable.urn (some repFt)⟩, st1)
    | .anyT => .ok (⟨true, .logicalType PYTHON_ANY_URN none⟩, st)
    | .unknownT _ => .ok (⟨true, .logicalType PYTHON_ANY_URN none⟩, st)

/-- The field loop of decode (lines 303-314): decode each field type,
unwrap a resulting `RowTypeConstraint` to its user type (307-308), and
wrap a field failure with the offending field (309-312). -/
def decode_subfields
    (dec1 : TransState → FieldType → Except DecErr (PyType × TransState)) :
    TransState → List (String × FieldType) → Except DecErr (List (String × PyType) × TransState)
  | st, [] => .ok ([], st)
  | st, (name, ft) :: rest =>
    match dec1 st ft with
    | .error e => .error (.fieldDecodeError name e)
    | .ok (fieldPyType, st1) =>
      let fieldPyType : PyType :=
        match fieldPyType with
        | .rowCon d => .namedTupleT d
        | t => t
      match decode_subfields dec1 st1 rest with
      | .error e => .error e
      | .ok (subfields, st2) => .ok ((name, fieldPyType) :: subfields, st2)

/-- `SchemaTranslation.typing_from_runner_api` (lines 263-343), one fuel
unit per call.  A nullable proto is decoded through a copy with
`nullable=False`, and the result is wrapped in `Optional` unless it is
`Any` (265-275).  The oneof dispatch: atomic (reverse table, `KeyError` →
`unsupportedAtomicType`), array, map, row, logical, and the unset/unknown
selector error (343).  The row branch (291-333): a registered id returns
`RowTypeConstraint.from_user_type` of the registered typing; an
unregistered id synthesizes a fresh NamedTuple from the decoded fields in
declared order, registers it under the schema's id, sets the schema id on
the result, and returns it. -/
def typing_from_runner_api :
    Nat → TransState → FieldType → Except DecErr (PyType × TransState)
  | 0, _, _ => .error .outOfFuel
  | fuel+1, st, .mk true info =>
    match typing_from_runner_api fuel st (.mk false info) with
    | .error e => .error e
    | .ok (.anyT, st1) => .ok (.anyT, st1)
    | .ok (base, st1) => .ok (.optionalT base, st1)
  | fuel+1, st, .mk false info =>
    match info with
    | .atomicType k =>
      match ATOMIC_TYPE_TO_PRIMITIVE k with
      | some t => .ok (t, st)
      | none => .error (.unsupportedAtomicType k)
    | .arrayType elementType =>
      match typing_from_runner_api fuel st elementType with
      | .error e => .error e
      | .ok (t, st1) => .ok (.seqT t, st1)
    | .mapType keyType valueType =>
      match typing_from_runner_api fuel st keyType with
      | .error e => .error e
      | .ok (keyT, st1) =>
        match typing_from_runner_api fuel st1 valueType with
        | .error e => .error e
        | .ok (valueT, st2) => .ok (.mapT keyT valueT, st2)
    | .rowType (.mk sid sfields) =>
      match get_typing_by_id st.regById sid with
      | some c => .ok (.rowCon c, st)
      | none =>
        match decode_subfields (typing_from_runner_api fuel) st sfields with
        | .error e => .error e
        | .ok (subfields, st1) =>
          let c := st1.nextComp
          .ok (.rowCon c,
            { st1 with
              comps := fun n => if n = c then ⟨subfields, some sid⟩ else st1.comps n,
              regById := registry_add st1.regById c (.mk sid sfields),
              nextComp := st1.nextComp + 1 })
    | .logicalType urn _ =>
      if urn = PYTHON_ANY_URN then .ok (.anyT, st)
      else
        match get_logical_type_by_urn urn with
        | none => .error (.unknownLogicalType urn)
        | some lt => .ok (lt.language_type, st)
    | .unset => .error .unrecognizedTypeInfo

/-- `named_fields_to_schema` (lines 149-158): translate the given fields
(the keyword arguments of the `Schema(...)` call are evaluated left to
right, so the fields are translated first), then draw a new id from the
registry; the resulting `Schema` is NOT added to the registry. -/
def named_fields_to_schema (stream : Nat → String) (fuel : Nat) (st : TransState)
    (namesAndTypes : List (String × PyType)) : Except EncErr (SchemaP × TransState) :=
  match translate_fields (typing_to_runner_api stream fuel) st namesAndTypes with
  | .error e => .error e
  | .ok (fieldProtos, st1) =>
    match generate_new_id stream st1 with
    | none => .error .noUniqueId
    | some (schemaId, pos') => .ok (.mk schemaId fieldProtos, { st1 with uuidPos := pos' })

/-- Modelled from the spec: `apache_beam.utils.timestamp.Timestamp` (not
under `src/`) is "a timestamp value holding whole seconds and
microsecond-of-second components"; it stores a single microsecond-resolution
epoch offset. -/
structure Timestamp where
  micros : Int
deriving DecidableEq

/-- Modelled from the spec: the `Timestamp(seconds=..., micros=...)`
constructor combines whole seconds and microseconds into the epoch
offset. -/
def Timestamp.ofSecondsMicros (seconds : Int) (micros : Int) : Timestamp :=
  ⟨seconds * 1000000 + micros⟩

/-- The `MicrosInstantRepresentation` NamedTuple (lines 538-540): int64
seconds and micros components. -/
structure MicrosInstantRepresentation where
  seconds : Int
  micros : Int
deriving DecidableEq

/-- `MicrosInstant.to_representation_type` (lines 559-562): split the
microsecond offset with Python floor division and modulus by 10^6.  For
this positive divisor Python's `//` and `%` agree with Lean's Euclidean
`Int` division and modulus. -/
def MicrosInstant.to_representation_type (value : Timestamp) : MicrosInstantRepresentation :=
  ⟨value.micros / 1000000, value.micros % 1000000⟩

/-- `MicrosInstant.to_language_type` (lines 564-566): recombine the
seconds/micros record into a `Timestamp`. -/
def MicrosInstant.to_language_type (value : MicrosInstantRepresentation) : Timestamp :=
  Timestamp.ofSecondsMicros value.seconds value.micros

/-- A concrete injective uuid stream for witnesses: position n yields a
string of n repetitions of a. -/
def demoStream : Nat → String := fun n => String.mk (List.replicate n 'a')

/-- An empty initial state. -/
def emptyState : TransState := ⟨[], fun _ => ⟨[], none⟩, 0, 0⟩

/-- A state whose every composite is self-referential: composite `c` has a
single field `x` annotated with the composite's own user class, and no
schema id assigned yet.  Restricted to composite 0 this is the environment
of one self-referential NamedTuple. -/
def cyclicState : TransState := ⟨[], fun c => ⟨[("x", .namedTupleT c)], none⟩, 0, 0⟩

/-- The encoding of a typing diverges: every recursion bound is exhausted. -/
def encodeDiverges (stream : Nat → String) (st : TransState) (t : PyType) : Prop :=
  ∀ fuel, typing_to_runner_api stream fuel st t = .error .outOfFuel

/-- Successful outcomes of the (unbounded) Python encode: some recursion
depth suffices to produce this result. -/
def EncOk (stream : Nat → String) (st : TransState) (t : PyType)
    (r : FieldType × TransState) : Prop :=
  ∃ fuel, typing_to_runner_api stream fuel st t = .ok r

/-- Typings built only from the primitive table, `Schema` literals,
`Any`, unknown leaves, the callable logical type, optionals, sequences and
mappings: no composite is reachable, so no registry interaction occurs. -/
def plainPyType : PyType → Bool
  | .schemaLit _ => true
  | .npInt8 | .npInt16 | .npInt32 | .npInt64 | .npFloat32 | .npFloat64 => true
  | .pyStr | .pyBool | .pyBytes | .byteString | .pyInt | .pyFloat => true
  | .anyT | .unknownT _ | .pythonCallableT => true
  | .mapT k v => plainPyType k && plainPyType v
  | .optionalT t => plainPyType t
  | .seqT e => plainPyType e
  | .rowCon _ | .namedTupleT _ | .timestampT => false

/-- What any one encode step can do to the state, observed at the
granularity the proofs need: a composite that already has a schema id
assigned is never touched, and the uuid stream position never moves
backwards. -/
def StatePreserved (st st' : TransState) : Prop :=
  (∀ d s, (st.comps d).schemaId = some s → st'.comps d = st.comps d) ∧
    st.uuidPos ≤ st'.uuidPos

/-- Fixture: a state holding one untranslated composite (key 5) with a
single int field. -/
def rowDemoState : TransState := ⟨[], fun _ => ⟨[("a", PyType.pyInt)], none⟩, 0, 0⟩

/-- Fixture: the schema that encoding composite 5 of `rowDemoState`
produces (the first `demoStream` uuid is the empty string). -/
def rowDemoSchema : SchemaP := .mk "" [("a", ⟨false, .atomicType .INT64⟩)]

/-- Fixture: the state after encoding composite 5 of `rowDemoState`. -/
def rowDemoStateAfter : TransState :=
  ⟨[("", 5, rowDemoSchema)],
   fun n => if n = 5 then ⟨[("a", PyType.pyInt)], some ""⟩ else ⟨[("a", PyType.pyInt)], none⟩,
   1, 0⟩

/-- Fixture: a `Row` proto schema with one int64 field. -/
def synthSchema : SchemaP := .mk "sid" [("a", ⟨false, .atomicType .INT64⟩)]

/-- Fixture: the state after decoding `synthSchema` from `emptyState`:
composite 0 was synthesized and registered under id `sid`. -/
def synthStateAfter : TransState :=
  ⟨[("sid", 0, synthSchema)],
   fun n => if n = 0 then ⟨[("a", PyType.npInt64)], some "sid"⟩ else ⟨[], none⟩,
   0, 1⟩

/-- The uuid stream used by the witnesses is injective. -/
theorem demoStream_injective : Function.Injective demoStream := by
  intro a b h
  have h2 : (List.replicate a 'a').length = (List.replicate b 'a').length := by
    have h3 : (demoStream a).data = (demoStream b).data := by rw [h]
    simpa [demoStream] using h3
  simpa using h2

theorem statePreserved_refl (st : TransState) : StatePreserved st st :=
  ⟨fun _ _ _ => rfl, le_refl _⟩

theorem statePreserved_trans {s1 s2 s3 : TransState}
    (h12 : StatePreserved s1 s2) (h23 : StatePreserved s2 s3) : StatePreserved s1 s3 := by
  refine ⟨fun d s hd => ?_, le_trans h12.2 h23.2⟩
  have e12 := h12.1 d s hd
  have hd2 : (s2.comps d).schemaId = some s := by rw [e12]; exact hd
  rw [h23.1 d s hd2, e12]

/-- A successful draw of `generate_new_id_aux` is fresh for the registry it
was checked against and comes from a stream position at or after the
starting one, with the final position right past it. -/
theorem generate_new_id_aux_spec (stream : Nat → String) (reg : List (String × Nat × SchemaP)) :
    ∀ n pos schemaId pos', generate_new_id_aux stream reg n pos = some (schemaId, pos') →
      regLookup reg schemaId = none ∧ ∃ i, pos ≤ i ∧ pos' = i + 1 ∧ schemaId = stream i := by
  intro n
  induction n with
  | zero => intro pos s p' h; simp [generate_new_id_aux] at h
  | succ n ih =>
    intro pos s p' h
    simp only [generate_new_id_aux] at h
    split at h
    · next hl =>
        simp only [Option.some.injEq, Prod.mk.injEq] at h
        obtain ⟨rfl, rfl⟩ := h
        exact ⟨hl, pos, le_refl _, rfl, rfl⟩
    · next v hl =>
        obtain ⟨h1, i, hle, hp, hs⟩ := ih (pos + 1) s p' h
        exact ⟨h1, i, by omega, hp, hs⟩

/-- Specification of `generate_new_id` in terms of the state. -/
theorem generate_new_id_spec (stream : Nat → String) (st : TransState) (schemaId : String)
    (pos' : Nat) (h : generate_new_id stream st = some (schemaId, pos')) :
    regLookup st.regById schemaId = none ∧
      ∃ i, st.uuidPos ≤ i ∧ pos' = i + 1 ∧ schemaId = stream i :=
  generate_new_id_aux_spec stream st.regById 100 st.uuidPos schemaId pos' h

/-- Translating a field list preserves whatever the one-step encoder
preserves. -/
theorem translate_fields_preserves
    (enc1 : TransState → PyType → Except EncErr (FieldType × TransState))
    (henc : ∀ st t r st', enc1 st t = .ok (r, st') → StatePreserved st st') :
    ∀ l st r st', translate_fields enc1 st l = .ok (r, st') → StatePreserved st st' := by
  intro l
  induction l with
  | nil =>
    intro st r st' h
    simp only [translate_fields, Except.ok.injEq, Prod.mk.injEq] at h
    obtain ⟨-, rfl⟩ := h
    exact statePreserved_refl st
  | cons p rest ih =>
    obtain ⟨name, t⟩ := p
    intro st r st' h
    simp only [translate_fields] at h
    split at h
    · simp at h
    · next ft st1 heq =>
        split at h
        · simp at h
        · next fps st2 heq2 =>
            simp only [Except.ok.injEq, Prod.mk.injEq] at h
            obtain ⟨-, rfl⟩ := h
            exact statePreserved_trans (henc _ _ _ _ heq) (ih _ _ _ heq2)

/-- Successful field translations transport along a pointwise refinement of
the one-step encoder (used to raise the fuel). -/
theorem translate_fields_mono
    (enc1 enc2 : TransState → PyType → Except EncErr (FieldType × TransState))
    (h12 : ∀ st t r, enc1 st t = .ok r → enc2 st t = .ok r) :
    ∀ l st r, translate_fields enc1 st l = .ok r → translate_fields enc2 st l = .ok r := by
  intro l
  induction l with
  | nil => intro st r h; exact h
  | cons p rest ih =>
    obtain ⟨name, t⟩ := p
    intro st r h
    simp only [translate_fields] at h
    split at h
    · simp at h
    · next ft st1 heq =>
        split at h
        · simp at h
        · next fps st2 heq2 =>
            simp only [translate_fields, h12 _ _ _ heq, ih _ _ heq2]
            exact h

/-- Decoding a field list keeps the declared names in declared order. -/
theorem decode_subfields_names
    (dec1 : TransState → FieldType → Except DecErr (PyType × TransState)) :
    ∀ l st r st', decode_subfields dec1 st l = .ok (r, st') →
      r.map Prod.fst = l.map Prod.fst := by
  intro l
  induction l with
  | nil =>
    intro st r st' h
    simp only [decode_subfields, Except.ok.injEq, Prod.mk.injEq] at h
    obtain ⟨rfl, -⟩ := h
    rfl
  | cons p rest ih =>
    obtain ⟨name, ft⟩ := p
    intro st r st' h
    simp only [decode_subfields] at h
    split at h
    · simp at h
    · next ty st1 heq =>
        split at h
        · simp at h
        · next sf st2 heq2 =>
            simp only [Except.ok.injEq, Prod.mk.injEq] at h
            obtain ⟨rfl, -⟩ := h
            simpa using ih _ _ _ heq2

/-- One encode step cannot change a composite whose schema id is already
assigned, and only moves the uuid position forward. -/
theorem encode_preserves (stream : Nat → String) :
    ∀ fuel st t r st', typing_to_runner_api stream fuel st t = .ok (r, st') →
      StatePreserved st st' := by
  intro fuel
  induction fuel with
  | zero => intro st t r st' h; simp [typing_to_runner_api] at h
  | succ fuel ih =>
    intro st t r st' h
    cases t
    case rowCon c =>
      simp only [typing_to_runner_api] at h
      split at h
      · next hsi =>
        split at h
        · simp at h
        · next schemaId pos' hgen =>
          split at h
          · simp at h
          · next fps st2 htf =>
            simp only [Except.ok.injEq, Prod.mk.injEq] at h
            obtain ⟨-, rfl⟩ := h
            have h12 := translate_fields_preserves _ (fun a b cc d hh => ih a b cc d hh)
              _ _ _ _ htf
            have hpos : st.uuidPos ≤ pos' := by
              obtain ⟨-, i, hle, hp, -⟩ := generate_new_id_spec stream st schemaId pos' hgen
              omega
            refine statePreserved_trans (statePreserved_trans ?_ h12)
              ⟨fun _ _ _ => rfl, le_refl _⟩
            refine ⟨fun d s hd => ?_, hpos⟩
            have hdc : d ≠ c := by
              rintro rfl
              rw [hsi] at hd
              exact Option.noConfusion hd
            simp [hdc]
      · next schemaId hsi =>
        split at h
        · next schema hfound =>
          simp only [Except.ok.injEq, Prod.mk.injEq] at h
          obtain ⟨-, rfl⟩ := h
          exact statePreserved_refl st
        · next hnf =>
          split at h
          · simp at h
          · next fps st2 htf =>
            simp only [Except.ok.injEq, Prod.mk.injEq] at h
            obtain ⟨-, rfl⟩ := h
            have h12 := translate_fields_preserves _ (fun a b cc d hh => ih a b cc d hh)
              _ _ _ _ htf
            exact statePreserved_trans h12 ⟨fun _ _ _ => rfl, le_refl _⟩
    case namedTupleT c =>
      simp only [typing_to_runner_api] at h
      exact ih _ _ _ _ h
    case mapT k v =>
      simp only [typing_to_runner_api] at h
      split at h
      · simp at h
      · next kft st1 hk =>
        split at h
        · simp at h
        · next vft st2 hv =>
          simp only [Except.ok.injEq, Prod.mk.injEq] at h
          obtain ⟨-, rfl⟩ := h
          exact statePreserved_trans (ih _ _ _ _ hk) (ih _ _ _ _ hv)
    case optionalT inner =>
      simp only [typing_to_runner_api] at h
      split at h
      · simp at h
      · next n resultInfo st1 hin =>
        simp only [Except.ok.injEq, Prod.mk.injEq] at h
        obtain ⟨-, rfl⟩ := h
        exact ih _ _ _ _ hin
    case seqT e =>
      simp only [typing_to_runner_api] at h
      split at h
      · simp at h
      · next eft st1 he =>
        simp only [Except.ok.injEq, Prod.mk.injEq] at h
        obtain ⟨-, rfl⟩ := h
        exact ih _ _ _ _ he
    case timestampT =>
      simp only [typing_to_runner_api] at h
      split at h
      · simp at h
      · next rft st1 hr =>
        simp only [Except.ok.injEq, Prod.mk.injEq] at h
        obtain ⟨-, rfl⟩ := h
        exact ih _ _ _ _ hr
    case pythonCallableT =>
      simp only [typing_to_runner_api] at h
      split at h
      · simp at h
      · next rft st1 hr =>
        simp only [Except.ok.injEq, Prod.mk.injEq] at h
        obtain ⟨-, rfl⟩ := h
        exact ih _ _ _ _ hr
    all_goals
      simp only [typing_to_runner_api, Except.ok.injEq, Prod.mk.injEq] at h
      obtain ⟨-, rfl⟩ := h
      exact statePreserved_refl st

/-- A successful encode at some fuel succeeds identically with one more
unit of fuel. -/
theorem encode_fuel_step (stream : Nat → String) :
    ∀ fuel st t r, typing_to_runner_api stream fuel st t = .ok r →
      typing_to_runner_api stream (fuel+1) st t = .ok r := by
  intro fuel
  induction fuel with
  | zero => intro st t r h; simp [typing_to_runner_api] at h
  | succ fuel ih =>
    intro st t r h
    obtain ⟨m, hm⟩ : ∃ m, m = fuel + 1 := ⟨_, rfl⟩
    cases t
    case rowCon c =>
      simp only [typing_to_runner_api] at h
      split at h
      · next hsi =>
        split at h
        · simp at h
        · next schemaId pos' hgen =>
          split at h
          · simp at h
          · next fps st2 htf =>
            have htf' := translate_fields_mono _ _ (fun a b cc hh => ih a b cc hh) _ _ _ htf
            rw [← hm] at htf' ⊢
            simp only [typing_to_runner_api, hsi, hgen, htf']
            exact h
      · next schemaId hsi =>
        split at h
        · next schema hfound =>
          rw [← hm]
          simp only [typing_to_runner_api, hsi, hfound]
          exact h
        · next hnf =>
          split at h
          · simp at h
          · next fps st2 htf =>
            have htf' := translate_fields_mono _ _ (fun a b cc hh => ih a b cc hh) _ _ _ htf
            rw [← hm] at htf' ⊢
            simp only [typing_to_runner_api, hsi, hnf, htf']
            exact h
    case namedTupleT c =>
      simp only [typing_to_runner_api] at h
      have h' := ih _ _ _ h
      rw [← hm] at h' ⊢
      simp only [typing_to_runner_api]
      exact h'
    case mapT k v =>
      simp only [typing_to_runner_api] at h
      split at h
      · simp at h
      · next kft st1 hk =>
        split at h
        · simp at h
        · next vft st2 hv =>
          have hk' := ih _ _ _ hk
          have hv' := ih _ _ _ hv
          rw [← hm] at hk' hv' ⊢
          simp only [typing_to_runner_api, hk', hv']
          exact h
    case optionalT inner =>
      simp only [typing_to_runner_api] at h
      split at h
      · simp at h
      · next n resultInfo st1 hin =>
        have hin' := ih _ _ _ hin
        rw [← hm] at hin' ⊢
        simp only [typing_to_runner_api, hin']
        exact h
    case seqT e =>
      simp only [typing_to_runner_api] at h
      split at h
      · simp at h
      · next eft st1 he =>
        have he' := ih _ _ _ he
        rw [← hm] at he' ⊢
        simp only [typing_to_runner_api, he']
        exact h
    case timestampT =>
      simp only [typing_to_runner_api] at h
      split at h
      · simp at h
      · next rft st1 hr =>
        have hr' := ih _ _ _ hr
        rw [← hm] at hr' ⊢
        simp only [typing_to_runner_api, hr']
        exact h
    case pythonCallableT =>
      simp only [typing_to_runner_api] at h
      split at h
      · simp at h
      · next rft st1 hr =>
        have hr' := ih _ _ _ hr
        rw [← hm] at hr' ⊢
        simp only [typing_to_runner_api, hr']
        exact h
    all_goals
      rw [← hm]
      simp only [typing_to_runner_api] at h ⊢
      exact h

/-- A successful encode persists under any increase of the fuel. -/
theorem encode_fuel_mono (stream : Nat → String) {fuel fuel' : Nat} (hle : fuel ≤ fuel') :
    ∀ st t r, typing_to_runner_api stream fuel st t = .ok r →
      typing_to_runner_api stream fuel' st t = .ok r := by
  induction hle with
  | refl => exact fun st t r h => h
  | step _ ih => exact fun st t r h => encode_fuel_step stream _ st t r (ih st t r h)

/-- Core of the self-reference analysis: once a composite whose single
field references the composite itself carries an assigned schema id that
the registry does not contain, encoding it exhausts every recursion
bound (the registry is only populated after the field translation, which
re-enters the same composite in the same state). -/
theorem encode_selfref_pending (stream : Nat → String) :
    ∀ fuel st c fieldName schemaId,
      (st.comps c).fields = [(fieldName, .namedTupleT c)] →
      (st.comps c).schemaId = some schemaId →
      regLookup st.regById schemaId = none →
      typing_to_runner_api stream fuel st (.rowCon c) = .error .outOfFuel ∧
      typing_to_runner_api stream fuel st (.namedTupleT c) = .error .outOfFuel := by
  intro fuel
  induction fuel with
  | zero => intro st c fieldName sid h1 h2 h3; exact ⟨rfl, rfl⟩
  | succ fuel ih =>
    intro st c fieldName sid h1 h2 h3
    have hnt : typing_to_runner_api stream fuel st (.namedTupleT c) = .error .outOfFuel :=
      (ih st c fieldName sid h1 h2 h3).2
    constructor
    · have hgs : get_schema_by_id st.regById sid = none := by
        simp [get_schema_by_id, h3]
      simp only [typing_to_runner_api, h2, hgs, h1, translate_fields, hnt]
    · simp only [typing_to_runner_api]
      exact (ih st c fieldName sid h1 h2 h3).1

/-- Encoding the self-referential composite of `cyclicState` exhausts
every recursion bound. -/
theorem cyclic_rowCon_diverges :
    ∀ fuel, typing_to_runner_api demoStream fuel cyclicState (.rowCon 0) = .error .outOfFuel := by
  intro fuel
  cases fuel with
  | zero => rfl
  | succ fuel =>
    have hsi : (cyclicState.comps 0).schemaId = none := rfl
    have hgen : generate_new_id demoStream cyclicState = some ("", 1) := rfl
    have hfl : (cyclicState.comps 0).fields = [("x", .namedTupleT 0)] := rfl
    have hpend := (encode_selfref_pending demoStream fuel
        ⟨cyclicState.regById,
         fun n => if n = 0 then ⟨[("x", .namedTupleT 0)], some ""⟩ else cyclicState.comps n,
         1, cyclicState.nextComp⟩
        0 "x" "" rfl rfl rfl).2
    simp only [typing_to_runner_api, hsi, hgen, hfl, translate_fields, hpend]

/-- Whatever a successful encode of an `Optional[...]` typing returns has
the nullable flag set (line 235: `result.nullable = True`). -/
theorem encode_optional_nullable (stream : Nat → String) (fuel : Nat) (st : TransState)
    (t : PyType) (r : FieldType × TransState)
    (h : typing_to_runner_api stream fuel st (.optionalT t) = .ok r) :
    r.1.nullable = true := by
  cases fuel with
  | zero => simp [typing_to_runner_api] at h
  | succ fuel =>
    simp only [typing_to_runner_api] at h
    split at h
    · simp at h
    · next n resultInfo st1 hin =>
      simp only [Except.ok.injEq] at h
      rw [← h]
      rfl

/-- Claim C1 (corrected), amended part: encoding is total and
state-preserving on every typing that reaches no composite (primitive
table entries, `Schema` literals, `Any`, unrecognized leaves, the callable
logical type, and optionals / sequences / mappings thereof), and any type
matching no atomic-table entry, no structural shape and no registered
logical type yields exactly the opaque placeholder
`Logical(urn = PYTHON_ANY_URN)` with `nullable = true` without touching
the state.  (The un-amended universal totality fails on self-referential
composites, see the counterexample.) -/
theorem c1_total_encode_amended :
    (∀ (stream : Nat → String) tag fuel st,
        typing_to_runner_api stream (fuel+1) st (.unknownT tag) =
          .ok (⟨true, .logicalType PYTHON_ANY_URN none⟩, st)) ∧
    (∀ (stream : Nat → String) t st, plainPyType t = true →
        ∃ fuel ft, typing_to_runner_api stream fuel st t = .ok (ft, st)) := by
  constructor
  · intro stream tag fuel st; rfl
  · intro stream t
    induction t with
    | schemaLit s => intro st hp; exact ⟨1, ⟨false, .rowType s⟩, rfl⟩
    | rowCon c => intro st hp; simp [plainPyType] at hp
    | namedTupleT c => intro st hp; simp [plainPyType] at hp
    | npInt8 => intro st hp; exact ⟨1, ⟨false, .atomicType .BYTE⟩, rfl⟩
    | npInt16 => intro st hp; exact ⟨1, ⟨false, .atomicType .INT16⟩, rfl⟩
    | npInt32 => intro st hp; exact ⟨1, ⟨false, .atomicType .INT32⟩, rfl⟩
    | npInt64 => intro st hp; exact ⟨1, ⟨false, .atomicType .INT64⟩, rfl⟩
    | npFloat32 => intro st hp; exact ⟨1, ⟨false, .atomicType .FLOAT⟩, rfl⟩
    | npFloat64 => intro st hp; exact ⟨1, ⟨false, .atomicType .DOUBLE⟩, rfl⟩
    | pyStr => intro st hp; exact ⟨1, ⟨false, .atomicType .STRING⟩, rfl⟩
    | pyBool => intro st hp; exact ⟨1, ⟨false, .atomicType .BOOLEAN⟩, rfl⟩
    | pyBytes => intro st hp; exact ⟨1, ⟨false, .atomicType .BYTES⟩, rfl⟩
    | byteString => intro st hp; exact ⟨1, ⟨false, .atomicType .BYTES⟩, rfl⟩
    | pyInt => intro st hp; exact ⟨1, ⟨false, .atomicType .INT64⟩, rfl⟩
    | pyFloat => intro st hp; exact ⟨1, ⟨false, .atomicType .DOUBLE⟩, rfl⟩
    | mapT k v ihk ihv =>
      intro st hp
      simp only [plainPyType, Bool.and_eq_true] at hp
      obtain ⟨f1, ft1, h1⟩ := ihk st hp.1
      obtain ⟨f2, ft2, h2⟩ := ihv st hp.2
      have h1' := encode_fuel_mono stream (le_max_left f1 f2) _ _ _ h1
      have h2' := encode_fuel_mono stream (le_max_right f1 f2) _ _ _ h2
      refine ⟨max f1 f2 + 1, ⟨false, .mapType ft1 ft2⟩, ?_⟩
      simp only [typing_to_runner_api, h1', h2']
    | optionalT t iht =>
      intro st hp
      simp only [plainPyType] at hp
      obtain ⟨f, ft, hf⟩ := iht st hp
      obtain ⟨n, i⟩ := ft
      exact ⟨f + 1, ⟨true, i⟩, by simp only [typing_to_runner_api, hf]⟩
    | seqT e ihe =>
      intro st hp
      simp only [plainPyType] at hp
      obtain ⟨f, ft, hf⟩ := ihe st hp
      exact ⟨f + 1, ⟨false, .arrayType ft⟩, by simp only [typing_to_runner_api, hf]⟩
    | timestampT => intro st hp; simp [plainPyType] at hp
    | pythonCallableT =>
      intro st hp
      exact ⟨2, ⟨false, .logicalType LogicalTypeImpl.pythonCallable.urn
        (some ⟨false, .atomicType .STRING⟩)⟩, rfl⟩
    | anyT => intro st hp; exact ⟨1, ⟨true, .logicalType PYTHON_ANY_URN none⟩, rfl⟩
    | unknownT tag => intro st hp; exact ⟨1, ⟨true, .logicalType PYTHON_ANY_URN none⟩, rfl⟩

/-- Claim C1, witness for the amended theorem: `Optional[str]` is in the
composite-free fragment and encodes (state unchanged). -/
theorem c1_total_encode_witness :
    plainPyType (.optionalT .pyStr) = true ∧
    ∃ fuel ft, typing_to_runner_api demoStream fuel emptyState (.optionalT .pyStr) =
      .ok (ft, emptyState) :=
  ⟨rfl, c1_total_encode_amended.2 demoStream (.optionalT .pyStr) emptyState rfl⟩

/-- Claim C1, counterexample to the claim as stated: encoding the
NamedTuple class of a self-referential composite never returns a
`FieldType` — it exhausts every recursion bound (a `RecursionError`, so
encoding is not total on every native type). -/
theorem c1_total_encode_counterexample :
    encodeDiverges demoStream cyclicState (.namedTupleT 0) := by
  intro fuel
  cases fuel with
  | zero => rfl
  | succ fuel =>
    simp only [typing_to_runner_api]
    exact cyclic_rowCon_diverges fuel

/-- Claim C2 (corrected): when a row-like composite has no schema id, the
id is generated and stored on the type before the fields are translated,
but the (type, Schema) registry entry is added only after the field
translation returns; consequently, encoding a self-referential composite
(here: the composite of `cyclicState`, whose single field references the
composite itself) does not terminate — it exhausts every recursion
bound. -/
theorem c2_registration_order_amended :
    ∀ fuel, typing_to_runner_api demoStream fuel cyclicState (.rowCon 0) = .error .outOfFuel :=
  cyclic_rowCon_diverges

/-- Claim C2, counterexample to the claim as stated: at the concrete
self-referential composite of `cyclicState`, encoding does not terminate
(here exhibited at recursion bound 100), refuting that the id/Schema shell
is registered before the fields are recursively translated. -/
theorem c2_registration_order_counterexample :
    typing_to_runner_api demoStream 100 cyclicState (.rowCon 0) = .error .outOfFuel :=
  cyclic_rowCon_diverges 100

/-- Claim C5: for each of the nine bijective atomic pairs, encoding the
native scalar type gives the bare atomic descriptor (state untouched), and
decoding that descriptor gives back exactly the same native type, so
`decode(encode(T)) = T` on the bijective subset. -/
theorem c5_bijective_atomic_roundtrip :
    ∀ (stream : Nat → String) fuel fuel₂ (st st₂ : TransState),
      (typing_to_runner_api stream (fuel+1) st .npInt8 = .ok (⟨false, .atomicType .BYTE⟩, st) ∧
        typing_from_runner_api (fuel₂+1) st₂ ⟨false, .atomicType .BYTE⟩ = .ok (.npInt8, st₂)) ∧
      (typing_to_runner_api stream (fuel+1) st .npInt16 = .ok (⟨false, .atomicType .INT16⟩, st) ∧
        typing_from_runner_api (fuel₂+1) st₂ ⟨false, .atomicType .INT16⟩ = .ok (.npInt16, st₂)) ∧
      (typing_to_runner_api stream (fuel+1) st .npInt32 = .ok (⟨false, .atomicType .INT32⟩, st) ∧
        typing_from_runner_api (fuel₂+1) st₂ ⟨false, .atomicType .INT32⟩ = .ok (.npInt32, st₂)) ∧
      (typing_to_runner_api stream (fuel+1) st .npInt64 = .ok (⟨false, .atomicType .INT64⟩, st) ∧
        typing_from_runner_api (fuel₂+1) st₂ ⟨false, .atomicType .INT64⟩ = .ok (.npInt64, st₂)) ∧
      (typing_to_runner_api stream (fuel+1) st .npFloat32 = .ok (⟨false, .atomicType .FLOAT⟩, st) ∧
        typing_from_runner_api (fuel₂+1) st₂ ⟨false, .atomicType .FLOAT⟩ = .ok (.npFloat32, st₂)) ∧
      (typing_to_runner_api stream (fuel+1) st .npFloat64 = .ok (⟨false, .atomicType .DOUBLE⟩, st) ∧
        typing_from_runner_api (fuel₂+1) st₂ ⟨false, .atomicType .DOUBLE⟩ = .ok (.npFloat64, st₂)) ∧
      (typing_to_runner_api stream (fuel+1) st .pyStr = .ok (⟨false, .atomicType .STRING⟩, st) ∧
        typing_from_runner_api (fuel₂+1) st₂ ⟨false, .atomicType .STRING⟩ = .ok (.pyStr, st₂)) ∧
      (typing_to_runner_api stream (fuel+1) st .pyBool = .ok (⟨false, .atomicType .BOOLEAN⟩, st) ∧
        typing_from_runner_api (fuel₂+1) st₂ ⟨false, .atomicType .BOOLEAN⟩ = .ok (.pyBool, st₂)) ∧
      (typing_to_runner_api stream (fuel+1) st .pyBytes = .ok (⟨false, .atomicType .BYTES⟩, st) ∧
        typing_from_runner_api (fuel₂+1) st₂ ⟨false, .atomicType .BYTES⟩ = .ok (.pyBytes, st₂)) :=
  fun _ _ _ _ _ =>
    ⟨⟨rfl, rfl⟩, ⟨rfl, rfl⟩, ⟨rfl, rfl⟩, ⟨rfl, rfl⟩, ⟨rfl, rfl⟩, ⟨rfl, rfl⟩, ⟨rfl, rfl⟩,
      ⟨rfl, rfl⟩, ⟨rfl, rfl⟩⟩

/-- Claim C6: encoding `Optional[Optional[T]]` has exactly the same
successful outcomes (descriptor and final state) as encoding
`Optional[T]`: one descriptor for `T` with `nullable = true` and no nested
nullability (setting the already-set nullable flag again is the identity;
in Python the two source types are moreover the very same object). -/
theorem c6_nullable_idempotence :
    ∀ (stream : Nat → String) (t : PyType) (st : TransState) (r : FieldType × TransState),
      EncOk stream st (.optionalT (.optionalT t)) r ↔ EncOk stream st (.optionalT t) r := by
  intro stream t st r
  constructor
  · rintro ⟨fuel, h⟩
    cases fuel with
    | zero => simp [typing_to_runner_api] at h
    | succ fuel =>
      simp only [typing_to_runner_api] at h
      split at h
      · simp at h
      · next n resultInfo st1 hin =>
        have hn : n = true := by
          simpa using encode_optional_nullable stream fuel st t _ hin
        subst hn
        simp only [Except.ok.injEq] at h
        exact ⟨fuel, h ▸ hin⟩
  · rintro ⟨fuel, h⟩
    obtain ⟨⟨rn, ri⟩, rst⟩ := r
    have hn : rn = true := by
      simpa using encode_optional_nullable stream fuel st t _ h
    subst hn
    refine ⟨fuel + 1, ?_⟩
    simp only [typing_to_runner_api, h]

/-- Claim C7: encoding the arbitrary-precision `int` yields the INT64
atomic descriptor, and decoding that descriptor yields `np.int64` (the
canonical fixed-width type, a different native type than `int`) — the
mapping is one-way. -/
theorem c7_lossy_int_roundtrip :
    ∀ (stream : Nat → String) fuel fuel₂ (st st₂ : TransState),
      typing_to_runner_api stream (fuel+1) st .pyInt = .ok (⟨false, .atomicType .INT64⟩, st) ∧
      typing_from_runner_api (fuel₂+1) st₂ ⟨false, .atomicType .INT64⟩ = .ok (.npInt64, st₂) :=
  fun _ _ _ _ _ => ⟨rfl, rfl⟩

/-- Claim C8: the `MicrosInstant` logical type round-trips every
`Timestamp` value through its representation, and the microsecond offset
1,500,000 splits into `(seconds = 1, micros = 500000)`. -/
theorem c8_micros_instant_roundtrip :
    (∀ v : Timestamp,
        MicrosInstant.to_language_type (MicrosInstant.to_representation_type v) = v) ∧
    MicrosInstant.to_representation_type ⟨1500000⟩ = ⟨1, 500000⟩ := by
  constructor
  · intro v
    obtain ⟨m⟩ := v
    simp only [MicrosInstant.to_representation_type, MicrosInstant.to_language_type,
      Timestamp.ofSecondsMicros, Timestamp.mk.injEq]
    omega
  · rfl

/-- Claim C9: decoding a `Logical(urn, _)` descriptor returns the
universal `Any` type when the urn is the untyped placeholder marker, fails
with an unknown-logical-type error naming the urn when no logical type is
registered for it, and otherwise returns the registered logical type's
`language_type`. -/
theorem c9_logical_decode :
    (∀ fuel (st : TransState) rep,
        typing_from_runner_api (fuel+1) st ⟨false, .logicalType PYTHON_ANY_URN rep⟩ =
          .ok (.anyT, st)) ∧
    (∀ fuel (st : TransState) urn rep, urn ≠ PYTHON_ANY_URN →
        get_logical_type_by_urn urn = none →
        typing_from_runner_api (fuel+1) st ⟨false, .logicalType urn rep⟩ =
          .error (.unknownLogicalType urn)) ∧
    (∀ fuel (st : TransState) urn rep lt, urn ≠ PYTHON_ANY_URN →
        get_logical_type_by_urn urn = some lt →
        typing_from_runner_api (fuel+1) st ⟨false, .logicalType urn rep⟩ =
          .ok (lt.language_type, st)) := by
  refine ⟨fun fuel st rep => rfl, fun fuel st urn rep hne hlk => ?_,
    fun fuel st urn rep lt hne hlk => ?_⟩
  · simp only [typing_from_runner_api, if_neg hne, hlk]
  · simp only [typing_from_runner_api, if_neg hne, hlk]

/-- Claim C9, witness: an unregistered urn decodes to the
unknown-logical-type error naming that urn. -/
theorem c9_logical_decode_witness :
    typing_from_runner_api 1 emptyState ⟨false, .logicalType "no:such:urn" none⟩ =
      .error (.unknownLogicalType "no:such:urn") :=
  c9_logical_decode.2.1 0 emptyState "no:such:urn" none (by decide) rfl

/-- Claim C3: encoding the same composite native type a second time
against the registry state left by a successful first encode returns the
identical `Row` descriptor (same schema id, same `Schema` content) and
leaves the state untouched (no duplicate `Schema` is created), both for a
`RowTypeConstraint` and for the corresponding NamedTuple user class. -/
theorem c3_schema_id_stability :
    (∀ (stream : Nat → String) fuel fuel' c st ft st',
        typing_to_runner_api stream fuel st (.rowCon c) = .ok (ft, st') →
        typing_to_runner_api stream (fuel'+1) st' (.rowCon c) = .ok (ft, st')) ∧
    (∀ (stream : Nat → String) fuel fuel' c st ft st',
        typing_to_runner_api stream fuel st (.namedTupleT c) = .ok (ft, st') →
        typing_to_runner_api stream (fuel'+2) st' (.namedTupleT c) = .ok (ft, st')) := by
  have main : ∀ (stream : Nat → String) fuel fuel' c st ft st',
      typing_to_runner_api stream fuel st (.rowCon c) = .ok (ft, st') →
      typing_to_runner_api stream (fuel'+1) st' (.rowCon c) = .ok (ft, st') := by
    intro stream fuel fuel' c st ft st' h
    cases fuel with
    | zero => simp [typing_to_runner_api] at h
    | succ fuel =>
      simp only [typing_to_runner_api] at h
      split at h
      · next hsi =>
        split at h
        · simp at h
        · next schemaId pos' hgen =>
          split at h
          · simp at h
          · next fps st2 htf =>
            simp only [Except.ok.injEq, Prod.mk.injEq] at h
            obtain ⟨rfl, rfl⟩ := h
            have hpres := translate_fields_preserves _
              (fun a b cc d hh => encode_preserves stream fuel a b cc d hh) _ _ _ _ htf
            have hc1 : (st2.comps c).schemaId = some schemaId := by
              have heq := hpres.1 c schemaId (by simp)
              rw [heq]
              simp
            simp only [typing_to_runner_api, hc1, get_schema_by_id, registry_add,
              regLookup, SchemaP.id]
            simp
      · next schemaId hsi =>
        split at h
        · next schema hfound =>
          simp only [Except.ok.injEq, Prod.mk.injEq] at h
          obtain ⟨rfl, rfl⟩ := h
          simp only [typing_to_runner_api, hsi, hfound]
        · next hnf =>
          split at h
          · simp at h
          · next fps st2 htf =>
            simp only [Except.ok.injEq, Prod.mk.injEq] at h
            obtain ⟨rfl, rfl⟩ := h
            have hpres := translate_fields_preserves _
              (fun a b cc d hh => encode_preserves stream fuel a b cc d hh) _ _ _ _ htf
            have hc1 : (st2.comps c).schemaId = some schemaId := by
              rw [hpres.1 c schemaId hsi]
              exact hsi
            simp only [typing_to_runner_api, hc1, get_schema_by_id, registry_add,
              regLookup, SchemaP.id]
            simp
  refine ⟨main, ?_⟩
  intro stream fuel fuel' c st ft st' h
  cases fuel with
  | zero => simp [typing_to_runner_api] at h
  | succ fuel =>
    have h' : typing_to_runner_api stream fuel st (.rowCon c) = .ok (ft, st') := by
      simpa [typing_to_runner_api] using h
    have h2 := main stream fuel fuel' c st ft st' h'
    obtain ⟨m, hm⟩ : ∃ m, m = fuel' + 1 := ⟨_, rfl⟩
    rw [← hm] at h2
    have h3 : typing_to_runner_api stream (m+1) st' (.namedTupleT c) = .ok (ft, st') := by
      simp only [typing_to_runner_api]
      exact h2
    have hm2 : m + 1 = fuel' + 2 := by omega
    rw [hm2] at h3
    exact h3

/-- Claim C3, witness: composite 5 of `rowDemoState` is encoded once
(assigning schema id, registering the schema); re-encoding it from the
resulting state returns the identical descriptor and the identical
state. -/
theorem c3_schema_id_stability_witness :
    typing_to_runner_api demoStream 6 rowDemoStateAfter (.rowCon 5) =
      .ok (⟨false, .rowType rowDemoSchema⟩, rowDemoStateAfter) :=
  c3_schema_id_stability.1 demoStream 2 5 5 rowDemoState _ _
    (rfl : typing_to_runner_api demoStream 2 rowDemoState (.rowCon 5) =
      .ok (⟨false, .rowType rowDemoSchema⟩, rowDemoStateAfter))

/-- Claim C4: decoding a `Row` descriptor whose schema id is absent from
the registry synthesizes a composite native type whose fields carry the
declared names in order, registers it under that id, and returns it; any
later decode of a `Row` descriptor carrying the same schema id returns
that same registered native type with the state unchanged (no second
synthesis). -/
theorem c4_synthesis_idempotence :
    ∀ fuel (st : TransState) sid sfields t st',
      regLookup st.regById sid = none →
      typing_from_runner_api (fuel+1) st ⟨false, .rowType (.mk sid sfields)⟩ = .ok (t, st') →
      ∃ c, t = .rowCon c ∧
        regLookup st'.regById sid = some (c, .mk sid sfields) ∧
        (st'.comps c).fields.map Prod.fst = sfields.map Prod.fst ∧
        ∀ fuel₂ sfields₂,
          typing_from_runner_api (fuel₂+1) st' ⟨false, .rowType (.mk sid sfields₂)⟩ =
            .ok (.rowCon c, st') := by
  intro fuel st sid sfields t st' hreg h
  have hgt : get_typing_by_id st.regById sid = none := by
    simp [get_typing_by_id, hreg]
  simp only [typing_from_runner_api, hgt] at h
  split at h
  · simp at h
  · next sf st1 hdf =>
    simp only [Except.ok.injEq, Prod.mk.injEq] at h
    obtain ⟨rfl, rfl⟩ := h
    refine ⟨st1.nextComp, rfl, ?_, ?_, ?_⟩
    · simp [registry_add, regLookup, SchemaP.id]
    · have hnames := decode_subfields_names _ _ _ _ _ hdf
      simpa using hnames
    · intro fuel₂ sfields₂
      have hgt2 : get_typing_by_id (registry_add st1.regById st1.nextComp (.mk sid sfields))
          sid = some st1.nextComp := by
        simp [get_typing_by_id, registry_add, regLookup, SchemaP.id]
      simp only [typing_from_runner_api, hgt2]

/-- Claim C4, witness: after `synthSchema` was synthesized from the empty
registry, decoding a `Row` descriptor carrying the same id `sid` (even
with a different field list) returns the same composite, state
unchanged. -/
theorem c4_synthesis_idempotence_witness :
    typing_from_runner_api 1 synthStateAfter ⟨false, .rowType (.mk "sid" [])⟩ =
      .ok (.rowCon 0, synthStateAfter) := by
  obtain ⟨c, hc, -, -, hdec⟩ :=
    c4_synthesis_idempotence 1 emptyState "sid" [("a", ⟨false, .atomicType .INT64⟩)]
      (.rowCon 0) synthStateAfter rfl
      (rfl : typing_from_runner_api 2 emptyState
        ⟨false, .rowType (.mk "sid" [("a", ⟨false, .atomicType .INT64⟩)])⟩ =
        .ok (.rowCon 0, synthStateAfter))
  obtain rfl : 0 = c := by
    injection hc
  exact hdec 0 []

/-- Claim C10: `named_fields_to_schema` returns a `Schema` whose id is
fresh (absent from the registry at generation time) and never adds that
`Schema` to the registry; with a collision-free uuid source, two
successive calls on the same field list therefore return schemas with
distinct ids — ad hoc field-list schemas are not deduplicated through the
registry. -/
theorem c10_named_fields_fresh_id :
    ∀ (stream : Nat → String), Function.Injective stream →
    ∀ fuel (st : TransState) nts s1 st1 s2 st2,
      named_fields_to_schema stream fuel st nts = .ok (s1, st1) →
      named_fields_to_schema stream fuel st1 nts = .ok (s2, st2) →
      regLookup st1.regById s1.id = none ∧ regLookup st2.regById s2.id = none ∧
        s1.id ≠ s2.id := by
  intro stream hinj fuel st nts s1 st1 s2 st2 h1 h2
  simp only [named_fields_to_schema] at h1 h2
  split at h1
  · simp at h1
  · next fps1 stA htf1 =>
    split at h1
    · simp at h1
    · next id1 pos1 hg1 =>
      simp only [Except.ok.injEq, Prod.mk.injEq] at h1
      obtain ⟨rfl, rfl⟩ := h1
      split at h2
      · simp at h2
      · next fps2 stB htf2 =>
        split at h2
        · simp at h2
        · next id2 pos2 hg2 =>
          simp only [Except.ok.injEq, Prod.mk.injEq] at h2
          obtain ⟨rfl, rfl⟩ := h2
          obtain ⟨hfresh1, i1, hle1, hpos1, hid1⟩ :=
            generate_new_id_spec stream stA id1 pos1 hg1
          obtain ⟨hfresh2, i2, hle2, hpos2, hid2⟩ :=
            generate_new_id_spec stream stB id2 pos2 hg2
          have hpres2 := translate_fields_preserves _
            (fun a b cc d hh => encode_preserves stream fuel a b cc d hh) _ _ _ _ htf2
          have hmid : pos1 ≤ stB.uuidPos := by simpa using hpres2.2
          refine ⟨by simpa [SchemaP.id] using hfresh1, by simpa [SchemaP.id] using hfresh2, ?_⟩
          simp only [SchemaP.id]
          rw [hid1, hid2]
          intro hEq
          have : i1 = i2 := hinj hEq
          omega

/-- Claim C10, witness: two successive calls on the field list
`[("x", int)]` starting from the empty state return schemas with the
fresh distinct ids drawn from the uuid stream, and neither is added to
the registry. -/
theorem c10_named_fields_fresh_id_witness :
    regLookup (TransState.mk [] (fun _ => ⟨[], none⟩) 1 0).regById
        (SchemaP.mk "" [("x", ⟨false, .atomicType .INT64⟩)]).id = none ∧
    regLookup (TransState.mk [] (fun _ => ⟨[], none⟩) 2 0).regById
        (SchemaP.mk "a" [("x", ⟨false, .atomicType .INT64⟩)]).id = none ∧
    (SchemaP.mk "" [("x", ⟨false, .atomicType .INT64⟩)]).id ≠
      (SchemaP.mk "a" [("x", ⟨false, .atomicType .INT64⟩)]).id :=
  c10_named_fields_fresh_id demoStream demoStream_injective 1 emptyState
    [("x", .pyInt)] _ _ _ _ rfl rfl
